import Mathlib

/-!
Shallow embedding of the explicit ODE integrators in `src/integrate.cpp`
(Euler, MidPoint, Ralston, RK4, and the generic Butcher-tableau driven
`ExplicitRungeKutta`), together with proofs of the specified properties.

The C++ code works over `double`; here the arithmetic is modelled exactly
over `ℚ`.  The particle quantities `pos` and `vel` are vector quantities in
the spec (2D or 3D); every stepper acts on them componentwise through `+`
and scalar `*`, so a single exact-rational component models the behaviour.
-/

/-- Modelled from the spec (the struct lives in `data.hpp`, which is not in
`src/`): one stage evaluation of the derivative function, with `vel` (rate of
change of position) and `accel` (rate of change of velocity) components. -/
structure DeltaState where
  vel : ℚ
  accel : ℚ
deriving DecidableEq

/-- Modelled from the spec: a default-constructed `DeltaState` is the
additive identity (all zero), used as the "no previous stage" placeholder. -/
def DeltaState.zero : DeltaState := ⟨0, 0⟩

/-- Scale both components of a `DeltaState` by a constant. -/
def DeltaState.scale (d : DeltaState) (k : ℚ) : DeltaState := ⟨k * d.vel, k * d.accel⟩

/-- Modelled from the spec (struct from the missing `data.hpp`): one
particle's kinematic state, `pos` and `vel`, modelled componentwise. -/
structure ParticleState where
  pos : ℚ
  vel : ℚ
deriving DecidableEq

/-- Modelled from the spec (struct from the missing `data.hpp`): the
coefficients of a generic explicit Runge-Kutta method. -/
structure ButcherTableau where
  a : List (List ℚ)
  b : List ℚ
  c : List ℚ
deriving DecidableEq

/-- The fixed-stage derivative evaluator shape:
`(state, time, timeOffset, previousStage) -> DeltaState`. -/
def EvalFixed : Type := ParticleState → ℚ → ℚ → DeltaState → DeltaState

/-- The generic derivative evaluator shape:
`(state, time, deltaTime, allStagesSoFar, tableau, stageIndex) -> DeltaState`. -/
def EvalGeneric : Type := ParticleState → ℚ → ℚ → List DeltaState → ButcherTableau → Nat → DeltaState

/-- `Euler` from `integrate.cpp`.  Note that the source passes `deltaTime`
(not `0.`) as the time-offset argument of the single evaluator call. -/
def Euler (state : ParticleState) (time deltaTime : ℚ) (evaluateFunc : EvalFixed) :
    ParticleState :=
  let k1 := evaluateFunc state time deltaTime DeltaState.zero
  { pos := state.pos + deltaTime * k1.vel
    vel := state.vel + deltaTime * k1.accel }

/-- `MidPoint` from `integrate.cpp`. -/
def MidPoint (state : ParticleState) (time deltaTime : ℚ) (evaluateFunc : EvalFixed) :
    ParticleState :=
  let k1 := evaluateFunc state time ((1/2) * deltaTime) DeltaState.zero
  { pos := state.pos + deltaTime * (k1.vel + (deltaTime / 2) * k1.vel)
    vel := state.vel + deltaTime * (k1.accel * (3/2)) }

/-- `Ralston` from `integrate.cpp`. -/
def Ralston (state : ParticleState) (time deltaTime : ℚ) (evaluateFunc : EvalFixed) :
    ParticleState :=
  let k1 := evaluateFunc state time 0 DeltaState.zero
  let k2 := evaluateFunc state time ((2/3) * deltaTime) k1
  { pos := state.pos + deltaTime * ((1/4) * k1.vel + (3/4) * k2.vel)
    vel := state.vel + deltaTime * ((1/4) * k1.accel + (3/4) * k2.accel) }

/-- `RK4` from `integrate.cpp`. -/
def RK4 (state : ParticleState) (time deltaTime : ℚ) (evaluateFunc : EvalFixed) :
    ParticleState :=
  let k1 := evaluateFunc state time 0 DeltaState.zero
  let k2 := evaluateFunc state time ((1/2) * deltaTime) k1
  let k3 := evaluateFunc state time ((1/2) * deltaTime) k2
  let k4 := evaluateFunc state time deltaTime k3
  { pos := state.pos + deltaTime / 6 * (k1.vel + 2 * (k2.vel + k3.vel) + k4.vel)
    vel := state.vel + deltaTime / 6 * (k1.accel + 2 * (k2.accel + k3.accel) + k4.accel) }

/-- The stage loop of `ExplicitRungeKutta`: `ERKstages st t dt tab f n` is the
`ks` vector after the first `n` iterations of
`for (i = 0; i < ks.size(); i++) ks[i] = evaluateFunc(state, time, deltaTime, ks, tableau, i);`
starting from `vector<DeltaState> ks(tableau.b.size())` (default, all-zero). -/
def ERKstages (state : ParticleState) (time deltaTime : ℚ) (tableau : ButcherTableau)
    (evaluateFunc : EvalGeneric) : Nat → List DeltaState
  | 0 => List.replicate tableau.b.length DeltaState.zero
  | n + 1 =>
      let ks := ERKstages state time deltaTime tableau evaluateFunc n
      ks.set n (evaluateFunc state time deltaTime ks tableau n)

/-- The accumulation loop of `ExplicitRungeKutta`: after `n` iterations of
`deltaPos += tableau.b[i] * ks[i].vel; deltaVel += tableau.b[i] * ks[i].accel;`
(read with C++ unchecked indexing, always in range in the source). -/
def stageSums (b : List ℚ) (ks : List DeltaState) : Nat → ℚ × ℚ
  | 0 => (0, 0)
  | n + 1 =>
      let acc := stageSums b ks n
      (acc.1 + b.getD n 0 * (ks.getD n DeltaState.zero).vel,
       acc.2 + b.getD n 0 * (ks.getD n DeltaState.zero).accel)

/-- `ExplicitRungeKutta` from `integrate.cpp`. -/
def ExplicitRungeKutta (state : ParticleState) (time deltaTime : ℚ)
    (tableau : ButcherTableau) (evaluateFunc : EvalGeneric) : ParticleState :=
  let ks := ERKstages state time deltaTime tableau evaluateFunc tableau.b.length
  let d := stageSums tableau.b ks tableau.b.length
  { pos := state.pos + deltaTime * d.1
    vel := state.vel + deltaTime * d.2 }

/-- A fixed-stage evaluator that reports the time-offset argument it was
called with, used to observe which offset a stepper passes. -/
def offsetProbe : EvalFixed := fun _ _ timeOffset _ => ⟨timeOffset, 0⟩

/-- The Butcher tableau of Ralston's method:
`c = [0, 2/3]`, `b = [1/4, 3/4]`, `a = [[0,0],[2/3,0]]`. -/
def ralstonTableau : ButcherTableau :=
  { a := [[0, 0], [(2:ℚ)/3, 0]]
    b := [1/4, 3/4]
    c := [0, 2/3] }

/-- A generic-signature evaluator built from a fixed-stage evaluator for a
two-stage tableau: stage `0` is the fixed evaluator's first call
(offset `0`, no previous stage); stage `i > 0` reads `tableau.a[i][0]` and
the previously computed stage `ks[0]`, exactly what the fixed-stage Ralston
evaluator would be given. -/
def ralstonGenericEval (f : EvalFixed) : EvalGeneric :=
  fun st time deltaTime ks tableau i =>
    if i = 0 then f st time 0 DeltaState.zero
    else f st time ((tableau.a.getD i []).getD 0 0 * deltaTime) (ks.getD 0 DeltaState.zero)

/-- A constant fixed-stage evaluator, used as a concrete instance. -/
def constOne : EvalFixed := fun _ _ _ _ => ⟨1, 1⟩

/-- Twice `constOne`, used as a concrete scaled instance. -/
def constTwo : EvalFixed := fun _ _ _ _ => ⟨2, 2⟩

/-- A constant generic-signature evaluator, used as a concrete instance. -/
def genConstOne : EvalGeneric := fun _ _ _ _ _ _ => ⟨1, 1⟩

/-- Twice `genConstOne`, used as a concrete scaled instance. -/
def genConstTwo : EvalGeneric := fun _ _ _ _ _ _ => ⟨2, 2⟩

/-- A tableau with zero stages (`b` empty). -/
def tabEmpty : ButcherTableau := { a := [], b := [], c := [] }

/-- The derivative evaluator of the problem `dy/dt = y`: the rate of change
is the current state value (here carried in `pos`), independent of the
time-offset and previous-stage arguments. -/
def expGrowthEval : EvalFixed := fun st _ _ _ => ⟨st.pos, 0⟩

/-- The step times `t_n = n/2` of 8 successive Euler steps of size `1/2`. -/
def eulerExpTimes : List ℚ := [0, 1/2, 1, 3/2, 2, 5/2, 3, 7/2]

/-- 8 successive Euler steps of size `1/2` for `dy/dt = y`, `y(0) = 1` (the
value `y` carried in `pos`), each step at its running time `t_n`. -/
def eulerExpFinal : ParticleState :=
  eulerExpTimes.foldl (fun s tn => Euler s tn (1/2) expGrowthEval) ⟨1, 0⟩

/-- The accumulation loop of `ExplicitRungeKutta` with every container read
bounds-checked (`none` plays the role of an out-of-bounds fault). -/
def checkedSums (b : List ℚ) (ks : List DeltaState) : Nat → Option (ℚ × ℚ)
  | 0 => some (0, 0)
  | n + 1 => do
      let acc ← checkedSums b ks n
      let bi ← b.get? n
      let ki ← ks.get? n
      some (acc.1 + bi * ki.vel, acc.2 + bi * ki.accel)

/-- The stage loop of `ExplicitRungeKutta` with the write `ks[i] = …`
bounds-checked. -/
def ERKstagesChecked (state : ParticleState) (time deltaTime : ℚ)
    (tableau : ButcherTableau) (evaluateFunc : EvalGeneric) :
    Nat → Option (List DeltaState)
  | 0 => some (List.replicate tableau.b.length DeltaState.zero)
  | n + 1 => do
      let ks ← ERKstagesChecked state time deltaTime tableau evaluateFunc n
      if n < ks.length then some (ks.set n (evaluateFunc state time deltaTime ks tableau n))
      else none

/-- `ExplicitRungeKutta` with every container access bounds-checked:
`none` models an out-of-bounds access, the only fallible operation in any
of the steppers. -/
def ExplicitRungeKuttaChecked (state : ParticleState) (time deltaTime : ℚ)
    (tableau : ButcherTableau) (evaluateFunc : EvalGeneric) : Option ParticleState := do
  let ks ← ERKstagesChecked state time deltaTime tableau evaluateFunc tableau.b.length
  let d ← checkedSums tableau.b ks tableau.b.length
  some { pos := state.pos + deltaTime * d.1, vel := state.vel + deltaTime * d.2 }

/-- Claim C3: `MidPoint` makes exactly one evaluator call
`k1 = evaluateFunc(state, time, h/2, zero)` and then updates
`pos += h*(k1.vel + (h/2)*k1.vel)` and `vel += h*(1.5*k1.accel)`. -/
theorem MidPoint_single_stage (st : ParticleState) (t h : ℚ) (f : EvalFixed) :
    MidPoint st t h f =
      { pos := st.pos + h * ((f st t (h/2) DeltaState.zero).vel
            + (h/2) * (f st t (h/2) DeltaState.zero).vel)
        vel := st.vel + h * ((3/2) * (f st t (h/2) DeltaState.zero).accel) } := by
  have e : (1/2 : ℚ) * h = h / 2 := by ring
  simp only [MidPoint, e]
  exact congrArg _ (by ring)

/-- Claim C2: `RK4` makes four evaluator calls in cascade,
`k1 = f(state,t,0,zero)`, `k2 = f(state,t,h/2,k1)`, `k3 = f(state,t,h/2,k2)`,
`k4 = f(state,t,h,k3)`, and updates
`pos += (h/6)*(k1.vel + 2*(k2.vel+k3.vel) + k4.vel)` and
`vel += (h/6)*(k1.accel + 2*(k2.accel+k3.accel) + k4.accel)`. -/
theorem RK4_four_stages (st : ParticleState) (t h : ℚ) (f : EvalFixed) :
    RK4 st t h f =
      (fun k1 k2 k3 k4 =>
        ({ pos := st.pos + h/6 * (k1.vel + 2 * (k2.vel + k3.vel) + k4.vel)
           vel := st.vel + h/6 * (k1.accel + 2 * (k2.accel + k3.accel) + k4.accel) }
          : ParticleState))
        (f st t 0 DeltaState.zero)
        (f st t (h/2) (f st t 0 DeltaState.zero))
        (f st t (h/2) (f st t (h/2) (f st t 0 DeltaState.zero)))
        (f st t h (f st t (h/2) (f st t (h/2) (f st t 0 DeltaState.zero)))) := by
  have e : (1/2 : ℚ) * h = h / 2 := by ring
  simp only [RK4, e]

/-- Claim C4 (counter-evidence): `Euler` passes `deltaTime`, not `0`, as the
time-offset argument of its single evaluator call.  With an evaluator that
returns the offset as the `vel` rate, `deltaTime = 1` moves `pos` from `0`
to `1`, while the claimed call `evaluateFunc(state, time, 0, zero)` returns
rate `0` and would leave `pos` at `0`. -/
theorem Euler_offset_is_deltaTime :
    (Euler ⟨0, 0⟩ 0 1 offsetProbe).pos = 1 ∧
      (offsetProbe ⟨0, 0⟩ 0 0 DeltaState.zero).vel = 0 := by
  refine ⟨?_, rfl⟩
  norm_num [Euler, offsetProbe]

/-- Claim C5: every stepper called with `deltaTime = 0` leaves `pos` and
`vel` unchanged, for every evaluator (finiteness is automatic in the exact
rational model). -/
theorem zero_deltaTime_identity (st : ParticleState) (t : ℚ) (f : EvalFixed)
    (tab : ButcherTableau) (g : EvalGeneric) :
    Euler st t 0 f = st ∧ MidPoint st t 0 f = st ∧ Ralston st t 0 f = st ∧
      RK4 st t 0 f = st ∧ ExplicitRungeKutta st t 0 tab g = st := by
  obtain ⟨p, v⟩ := st
  refine ⟨?_, ?_, ?_, ?_, ?_⟩ <;>
    simp [Euler, MidPoint, Ralston, RK4, ExplicitRungeKutta]

/-- `getD` of `set` at the written index, when the index is in range. -/
theorem getD_set_self {α : Type} (l : List α) (i : Nat) (v d : α) (h : i < l.length) :
    (l.set i v).getD i d = v := by
  simp [List.getD, List.getElem?_set_self, h]

/-- `getD` of `set` at any other index. -/
theorem getD_set_other {α : Type} (l : List α) (i j : Nat) (v d : α) (h : i ≠ j) :
    (l.set i v).getD j d = l.getD j d := by
  simp [List.getD, List.getElem?_set_ne h]

/-- `getD` of a replicated list with the replicated value as default. -/
theorem getD_replicate_self {α : Type} (n i : Nat) (z : α) :
    (List.replicate n z).getD i z = z := by
  simp [List.getD, List.getElem?_replicate]
  split <;> simp

/-- `get?` agrees with `getD` at in-range indices. -/
theorem get?_of_lt {α : Type} (l : List α) (i : Nat) (d : α) (h : i < l.length) :
    l.get? i = some (l.getD i d) := by
  simp [List.getD, List.get?_eq_getElem?, List.getElem?_eq_getElem h]

/-- The stage loop never changes the length of `ks`. -/
theorem ERKstages_length (st : ParticleState) (t dt : ℚ) (tab : ButcherTableau)
    (f : EvalGeneric) (n : Nat) :
    (ERKstages st t dt tab f n).length = tab.b.length := by
  induction n with
  | zero => simp [ERKstages]
  | succ n ih => simp [ERKstages, ih]

/-- Entries at or past the loop counter are still default (all-zero). -/
theorem ERKstages_getD_of_le (st : ParticleState) (t dt : ℚ) (tab : ButcherTableau)
    (f : EvalGeneric) (n j : Nat) (h : n ≤ j) :
    (ERKstages st t dt tab f n).getD j DeltaState.zero = DeltaState.zero := by
  induction n with
  | zero => exact getD_replicate_self _ _ _
  | succ n ih =>
      have hne : n ≠ j := by omega
      simp only [ERKstages]
      rw [getD_set_other _ _ _ _ _ hne]
      exact ih (by omega)

/-- Entries below the loop counter are never touched by later iterations. -/
theorem ERKstages_getD_stable (st : ParticleState) (t dt : ℚ) (tab : ButcherTableau)
    (f : EvalGeneric) (n m j : Nat) (hj : j < n) (hnm : n ≤ m) :
    (ERKstages st t dt tab f m).getD j DeltaState.zero
      = (ERKstages st t dt tab f n).getD j DeltaState.zero := by
  induction m with
  | zero =>
      have : n = 0 := by omega
      rw [this]
  | succ m ih =>
      rcases Nat.eq_or_lt_of_le hnm with he | hlt
      · rw [he]
      · have hm : n ≤ m := by omega
        have hmj : m ≠ j := by omega
        simp only [ERKstages]
        rw [getD_set_other _ _ _ _ _ hmj]
        exact ih hm

/-- Iteration `i` of the stage loop stores the evaluator's value at the
`ks` vector produced by the previous iterations. -/
theorem ERKstages_getD_at (st : ParticleState) (t dt : ℚ) (tab : ButcherTableau)
    (f : EvalGeneric) (i : Nat) (hi : i < tab.b.length) :
    (ERKstages st t dt tab f (i + 1)).getD i DeltaState.zero
      = f st t dt (ERKstages st t dt tab f i) tab i := by
  simp only [ERKstages]
  exact getD_set_self _ _ _ _ (by rw [ERKstages_length]; exact hi)

/-- The accumulation loop computes the in-order weighted sums. -/
theorem stageSums_eq_sum (b : List ℚ) (ks : List DeltaState) (n : Nat) :
    stageSums b ks n =
      (∑ i ∈ Finset.range n, b.getD i 0 * (ks.getD i DeltaState.zero).vel,
       ∑ i ∈ Finset.range n, b.getD i 0 * (ks.getD i DeltaState.zero).accel) := by
  induction n with
  | zero => simp [stageSums]
  | succ n ih => simp [stageSums, ih, Finset.sum_range_succ]

/-- Claim C1: in `ExplicitRungeKutta` the stages are computed in increasing
order: the final `ks[i]` is the evaluator's value at stage `i`, whose `ks`
argument already holds the final values of stages `0..i-1` and still holds
the all-zero placeholder at stages `i..s-1`; afterwards the state is updated
by `pos += deltaTime * Σ b[i]*ks[i].vel` and `vel += deltaTime * Σ b[i]*ks[i].accel`
with the sum taken over `i = 0..s-1`. -/
theorem ExplicitRungeKutta_stage_order (st : ParticleState) (t dt : ℚ)
    (tab : ButcherTableau) (f : EvalGeneric) (i : Nat) (hi : i < tab.b.length) :
    (ERKstages st t dt tab f tab.b.length).getD i DeltaState.zero
        = f st t dt (ERKstages st t dt tab f i) tab i
      ∧ (∀ j, j < i → (ERKstages st t dt tab f i).getD j DeltaState.zero
          = (ERKstages st t dt tab f tab.b.length).getD j DeltaState.zero)
      ∧ (∀ j, i ≤ j → (ERKstages st t dt tab f i).getD j DeltaState.zero = DeltaState.zero)
      ∧ ExplicitRungeKutta st t dt tab f =
          { pos := st.pos + dt * ∑ j ∈ Finset.range tab.b.length,
              tab.b.getD j 0 * ((ERKstages st t dt tab f tab.b.length).getD j DeltaState.zero).vel
            vel := st.vel + dt * ∑ j ∈ Finset.range tab.b.length,
              tab.b.getD j 0
                * ((ERKstages st t dt tab f tab.b.length).getD j DeltaState.zero).accel } := by
  refine ⟨?_, ?_, ?_, ?_⟩
  · rw [ERKstages_getD_stable st t dt tab f (i + 1) tab.b.length i (Nat.lt_succ_self i) hi]
    exact ERKstages_getD_at st t dt tab f i hi
  · intro j hj
    exact (ERKstages_getD_stable st t dt tab f i tab.b.length j hj (Nat.le_of_lt hi)).symm
  · intro j hj
    exact ERKstages_getD_of_le st t dt tab f i j hj
  · simp only [ExplicitRungeKutta, stageSums_eq_sum]

/-- Concrete instance of `ExplicitRungeKutta_stage_order`: the Ralston
tableau has `1 < s`, and stage `1` of the loop is the evaluator applied to
the `ks` vector left by stage `0`. -/
theorem ExplicitRungeKutta_stage_order_holds :
    1 < ralstonTableau.b.length ∧
      (ERKstages ⟨0, 0⟩ 0 1 ralstonTableau genConstOne ralstonTableau.b.length).getD 1
          DeltaState.zero
        = genConstOne ⟨0, 0⟩ 0 1 (ERKstages ⟨0, 0⟩ 0 1 ralstonTableau genConstOne 1)
            ralstonTableau 1 :=
  ⟨by decide,
   (ExplicitRungeKutta_stage_order ⟨0, 0⟩ 0 1 ralstonTableau genConstOne 1 (by decide)).1⟩

/-- Claim C6: with the Ralston tableau and the generic-signature evaluator
built from a fixed-stage evaluator `f`, `ExplicitRungeKutta` produces exactly
the same state as the dedicated `Ralston` stepper (exact arithmetic). -/
theorem ExplicitRungeKutta_matches_Ralston (st : ParticleState) (t h : ℚ) (f : EvalFixed) :
    ExplicitRungeKutta st t h ralstonTableau (ralstonGenericEval f) = Ralston st t h f := by
  have e : ExplicitRungeKutta st t h ralstonTableau (ralstonGenericEval f) =
      { pos := st.pos + h * (0 + 1/4 * (f st t 0 DeltaState.zero).vel
            + 3/4 * (f st t ((2:ℚ)/3 * h) (f st t 0 DeltaState.zero)).vel)
        vel := st.vel + h * (0 + 1/4 * (f st t 0 DeltaState.zero).accel
            + 3/4 * (f st t ((2:ℚ)/3 * h) (f st t 0 DeltaState.zero)).accel) } := rfl
  rw [e]
  simp only [Ralston, ParticleState.mk.injEq]
  constructor <;> ring

/-- Claim C10: with an empty `tableau.b` the generic stepper leaves the
state unchanged and its result does not depend on the evaluator at all
(the stage loop body never runs). -/
theorem ExplicitRungeKutta_empty (st : ParticleState) (t dt : ℚ) (tab : ButcherTableau)
    (f g : EvalGeneric) (hb : tab.b = []) :
    ExplicitRungeKutta st t dt tab f = st ∧
      ExplicitRungeKutta st t dt tab f = ExplicitRungeKutta st t dt tab g := by
  obtain ⟨p, v⟩ := st
  constructor <;> simp [ExplicitRungeKutta, ERKstages, stageSums, hb]

/-- Concrete instance of `ExplicitRungeKutta_empty` at the zero-stage
tableau. -/
theorem ExplicitRungeKutta_empty_holds :
    tabEmpty.b = [] ∧ ExplicitRungeKutta ⟨0, 0⟩ 0 1 tabEmpty genConstOne = ⟨0, 0⟩ :=
  ⟨rfl, (ExplicitRungeKutta_empty ⟨0, 0⟩ 0 1 tabEmpty genConstOne genConstTwo rfl).1⟩

/-- The bounds-checked stage loop never faults while the counter stays
within `tableau.b`'s length. -/
theorem ERKstagesChecked_eq (st : ParticleState) (t dt : ℚ) (tab : ButcherTableau)
    (f : EvalGeneric) : ∀ n, n ≤ tab.b.length →
    ERKstagesChecked st t dt tab f n = some (ERKstages st t dt tab f n) := by
  intro n
  induction n with
  | zero => intro _; rfl
  | succ n ih =>
      intro h
      have hn : n ≤ tab.b.length := by omega
      simp only [ERKstagesChecked, ih hn, Option.bind_eq_bind, Option.some_bind]
      rw [ERKstages_length]
      simp [Nat.lt_of_succ_le h, ERKstages]

/-- The bounds-checked accumulation loop never faults while the counter is
within both containers. -/
theorem checkedSums_eq (b : List ℚ) (ks : List DeltaState) : ∀ n, n ≤ b.length →
    n ≤ ks.length → checkedSums b ks n = some (stageSums b ks n) := by
  intro n
  induction n with
  | zero => intro _ _; rfl
  | succ n ih =>
      intro hb hk
      simp only [checkedSums, ih (by omega) (by omega), Option.bind_eq_bind, Option.some_bind,
        get?_of_lt b n 0 (by omega), get?_of_lt ks n DeltaState.zero (by omega)]
      simp [stageSums]

/-- Claim C8: no stepper call can fault.  The only fallible operations in
the whole family are `ExplicitRungeKutta`'s container accesses; with every
access bounds-checked the computation always succeeds and returns exactly
the in-place `pos`/`vel` update of the unchecked function (in a functional
embedding nothing else — time, deltaTime, tableau — is writable at all). -/
theorem ExplicitRungeKutta_never_faults (st : ParticleState) (t dt : ℚ)
    (tab : ButcherTableau) (f : EvalGeneric) :
    ExplicitRungeKuttaChecked st t dt tab f = some (ExplicitRungeKutta st t dt tab f) := by
  have h1 := ERKstagesChecked_eq st t dt tab f tab.b.length le_rfl
  have h2 : checkedSums tab.b (ERKstages st t dt tab f tab.b.length) tab.b.length
      = some (stageSums tab.b (ERKstages st t dt tab f tab.b.length) tab.b.length) := by
    refine checkedSums_eq _ _ _ le_rfl ?_
    rw [ERKstages_length]
  simp only [ExplicitRungeKuttaChecked, h1, Option.bind_eq_bind, Option.some_bind, h2,
    ExplicitRungeKutta]

/-- If at every stage the scaled run's evaluator returns the `k`-scaled
value of the baseline run's stage, the two stage vectors are pointwise
`k`-scaled. -/
theorem ERKstages_scale_all (st : ParticleState) (t h k : ℚ) (tab : ButcherTableau)
    (g gS : EvalGeneric)
    (hG : ∀ i, i < tab.b.length →
      gS st t h (ERKstages st t h tab gS i) tab i
        = (g st t h (ERKstages st t h tab g i) tab i).scale k) :
    ∀ n, n ≤ tab.b.length → ∀ j,
      (ERKstages st t h tab gS n).getD j DeltaState.zero
        = ((ERKstages st t h tab g n).getD j DeltaState.zero).scale k := by
  intro n
  induction n with
  | zero =>
      intro _ j
      simp only [ERKstages]
      simp [getD_replicate_self, DeltaState.scale, DeltaState.zero]
  | succ n ih =>
      intro h' j
      have hn : n ≤ tab.b.length := by omega
      by_cases hj : j = n
      · subst hj
        rw [ERKstages_getD_at st t h tab gS j (by omega),
            ERKstages_getD_at st t h tab g j (by omega)]
        exact hG j (by omega)
      · have e1 : (ERKstages st t h tab gS (n + 1)).getD j DeltaState.zero
            = (ERKstages st t h tab gS n).getD j DeltaState.zero := by
          simp only [ERKstages]
          exact getD_set_other _ _ _ _ _ (Ne.symm hj)
        have e2 : (ERKstages st t h tab g (n + 1)).getD j DeltaState.zero
            = (ERKstages st t h tab g n).getD j DeltaState.zero := by
          simp only [ERKstages]
          exact getD_set_other _ _ _ _ _ (Ne.symm hj)
        rw [e1, e2]
        exact ih hn j

/-- Claim C7: for every stepper, if at each stage the evaluator of the
second run returns the `k`-scaled value of the baseline evaluator's stage
(the stage inputs corresponding: the second run's stage `i` input is the
`k`-scaled baseline stage `i-1`), then the change applied to `pos` and to
`vel` is exactly `k` times the baseline change. -/
theorem scaled_evaluator_scales_delta (st : ParticleState) (t h k : ℚ)
    (f fS : EvalFixed) (tab : ButcherTableau) (g gS : EvalGeneric)
    (hE : fS st t h DeltaState.zero = (f st t h DeltaState.zero).scale k)
    (hM : fS st t ((1/2) * h) DeltaState.zero = (f st t ((1/2) * h) DeltaState.zero).scale k)
    (hS1 : fS st t 0 DeltaState.zero = (f st t 0 DeltaState.zero).scale k)
    (hR2 : fS st t ((2/3) * h) ((f st t 0 DeltaState.zero).scale k)
        = (f st t ((2/3) * h) (f st t 0 DeltaState.zero)).scale k)
    (hK2 : fS st t ((1/2) * h) ((f st t 0 DeltaState.zero).scale k)
        = (f st t ((1/2) * h) (f st t 0 DeltaState.zero)).scale k)
    (hK3 : fS st t ((1/2) * h) ((f st t ((1/2) * h) (f st t 0 DeltaState.zero)).scale k)
        = (f st t ((1/2) * h) (f st t ((1/2) * h) (f st t 0 DeltaState.zero))).scale k)
    (hK4 : fS st t h ((f st t ((1/2) * h) (f st t ((1/2) * h) (f st t 0 DeltaState.zero))).scale k)
        = (f st t h (f st t ((1/2) * h) (f st t ((1/2) * h) (f st t 0 DeltaState.zero)))).scale k)
    (hG : ∀ i, i < tab.b.length →
      gS st t h (ERKstages st t h tab gS i) tab i
        = (g st t h (ERKstages st t h tab g i) tab i).scale k) :
    ((Euler st t h fS).pos - st.pos = k * ((Euler st t h f).pos - st.pos)
      ∧ (Euler st t h fS).vel - st.vel = k * ((Euler st t h f).vel - st.vel))
    ∧ ((MidPoint st t h fS).pos - st.pos = k * ((MidPoint st t h f).pos - st.pos)
      ∧ (MidPoint st t h fS).vel - st.vel = k * ((MidPoint st t h f).vel - st.vel))
    ∧ ((Ralston st t h fS).pos - st.pos = k * ((Ralston st t h f).pos - st.pos)
      ∧ (Ralston st t h fS).vel - st.vel = k * ((Ralston st t h f).vel - st.vel))
    ∧ ((RK4 st t h fS).pos - st.pos = k * ((RK4 st t h f).pos - st.pos)
      ∧ (RK4 st t h fS).vel - st.vel = k * ((RK4 st t h f).vel - st.vel))
    ∧ ((ExplicitRungeKutta st t h tab gS).pos - st.pos
          = k * ((ExplicitRungeKutta st t h tab g).pos - st.pos)
      ∧ (ExplicitRungeKutta st t h tab gS).vel - st.vel
          = k * ((ExplicitRungeKutta st t h tab g).vel - st.vel)) := by
  have hks := ERKstages_scale_all st t h k tab g gS hG tab.b.length le_rfl
  have hv : (∑ j ∈ Finset.range tab.b.length, tab.b.getD j 0
        * ((ERKstages st t h tab gS tab.b.length).getD j DeltaState.zero).vel)
      = k * ∑ j ∈ Finset.range tab.b.length, tab.b.getD j 0
        * ((ERKstages st t h tab g tab.b.length).getD j DeltaState.zero).vel := by
    rw [Finset.mul_sum]
    refine Finset.sum_congr rfl fun j _ => ?_
    rw [hks j]
    simp only [DeltaState.scale]
    ring
  have ha : (∑ j ∈ Finset.range tab.b.length, tab.b.getD j 0
        * ((ERKstages st t h tab gS tab.b.length).getD j DeltaState.zero).accel)
      = k * ∑ j ∈ Finset.range tab.b.length, tab.b.getD j 0
        * ((ERKstages st t h tab g tab.b.length).getD j DeltaState.zero).accel := by
    rw [Finset.mul_sum]
    refine Finset.sum_congr rfl fun j _ => ?_
    rw [hks j]
    simp only [DeltaState.scale]
    ring
  refine ⟨⟨?_, ?_⟩, ⟨?_, ?_⟩, ⟨?_, ?_⟩, ⟨?_, ?_⟩, ⟨?_, ?_⟩⟩
  · simp only [Euler, hE, DeltaState.scale]; ring
  · simp only [Euler, hE, DeltaState.scale]; ring
  · simp only [MidPoint, hM, DeltaState.scale]; ring
  · simp only [MidPoint, hM, DeltaState.scale]; ring
  · simp only [Ralston]
    rw [hS1, hR2]
    simp only [DeltaState.scale]
    ring
  · simp only [Ralston]
    rw [hS1, hR2]
    simp only [DeltaState.scale]
    ring
  · simp only [RK4]
    rw [hS1, hK2, hK3, hK4]
    simp only [DeltaState.scale]
    ring
  · simp only [RK4]
    rw [hS1, hK2, hK3, hK4]
    simp only [DeltaState.scale]
    ring
  · simp only [ExplicitRungeKutta, stageSums_eq_sum]
    rw [hv]; ring
  · simp only [ExplicitRungeKutta, stageSums_eq_sum]
    rw [ha]; ring

/-- Concrete instance of `scaled_evaluator_scales_delta` with `k = 2`,
baseline evaluators constantly `(1,1)` and scaled evaluators constantly
`(2,2)`: the Euler and generic-stepper deltas double. -/
theorem scaled_evaluator_scales_delta_holds :
    (constTwo ⟨0, 0⟩ 0 1 DeltaState.zero = (constOne ⟨0, 0⟩ 0 1 DeltaState.zero).scale 2)
    ∧ (∀ i, i < ralstonTableau.b.length →
        genConstTwo ⟨0, 0⟩ 0 1 (ERKstages ⟨0, 0⟩ 0 1 ralstonTableau genConstTwo i)
            ralstonTableau i
          = (genConstOne ⟨0, 0⟩ 0 1 (ERKstages ⟨0, 0⟩ 0 1 ralstonTableau genConstOne i)
              ralstonTableau i).scale 2)
    ∧ ((Euler ⟨0, 0⟩ 0 1 constTwo).pos - (⟨0, 0⟩ : ParticleState).pos
        = 2 * ((Euler ⟨0, 0⟩ 0 1 constOne).pos - (⟨0, 0⟩ : ParticleState).pos))
    ∧ ((ExplicitRungeKutta ⟨0, 0⟩ 0 1 ralstonTableau genConstTwo).pos
          - (⟨0, 0⟩ : ParticleState).pos
        = 2 * ((ExplicitRungeKutta ⟨0, 0⟩ 0 1 ralstonTableau genConstOne).pos
          - (⟨0, 0⟩ : ParticleState).pos)) := by
  have hA : constTwo ⟨0, 0⟩ 0 1 DeltaState.zero
      = (constOne ⟨0, 0⟩ 0 1 DeltaState.zero).scale 2 := by
    simp [constOne, constTwo, DeltaState.scale]
  have hB : ∀ i, i < ralstonTableau.b.length →
      genConstTwo ⟨0, 0⟩ 0 1 (ERKstages ⟨0, 0⟩ 0 1 ralstonTableau genConstTwo i)
          ralstonTableau i
        = (genConstOne ⟨0, 0⟩ 0 1 (ERKstages ⟨0, 0⟩ 0 1 ralstonTableau genConstOne i)
            ralstonTableau i).scale 2 := by
    intro i _
    simp [genConstOne, genConstTwo, DeltaState.scale]
  have hC : constTwo ⟨0, 0⟩ 0 ((1/2) * 1) DeltaState.zero
      = (constOne ⟨0, 0⟩ 0 ((1/2) * 1) DeltaState.zero).scale 2 := by
    simp [constOne, constTwo, DeltaState.scale]
  have app := scaled_evaluator_scales_delta ⟨0, 0⟩ 0 1 2 constOne constTwo ralstonTableau
    genConstOne genConstTwo hA hC
    (by simp [constOne, constTwo, DeltaState.scale])
    (by simp [constOne, constTwo, DeltaState.scale])
    (by simp [constOne, constTwo, DeltaState.scale])
    (by simp [constOne, constTwo, DeltaState.scale])
    (by simp [constOne, constTwo, DeltaState.scale])
    hB
  exact ⟨hA, hB, app.1.1, app.2.2.2.2.1⟩

/-- Claim C9: for `dy/dt = y`, `y(0) = 1`, `h = 1/2`, 8 successive Euler
steps give exactly `(3/2)^8`, which is within `1/1000` of `25.6289`. -/
theorem euler_exponential_growth :
    eulerExpFinal.pos = (3/2 : ℚ)^8 ∧ |eulerExpFinal.pos - 25.6289| ≤ 1/1000 := by
  have e : eulerExpFinal.pos = (3/2 : ℚ)^8 := by
    norm_num [eulerExpFinal, eulerExpTimes, List.foldl, Euler, expGrowthEval]
  refine ⟨e, ?_⟩
  rw [e]
  norm_num [abs_le]
